import Mathlib

/-!
Verification of the request-mediation and policy-enforcement layer of the
home-assistant-mcp repository. Python strings are modelled as Lean `String`
(character-level reasoning descends to `String.data : List Char`). Each
definition is a shallow embedding of the corresponding Python function,
named after it where Lean allows.
-/

/-- The ASCII apostrophe character (code point 39), used by the denial
messages in `security.py`; written via `Char.ofNat` so that the quote does
not appear literally in this file. -/
def apos : String := String.singleton (Char.ofNat 39)

/-!
## Glob matching (Python `fnmatch.fnmatch` on POSIX)

`security.py` matches `domain.service` strings against allowlist patterns
with `fnmatch.fnmatch`, which on POSIX is a case-sensitive glob where `*`
matches zero or more of any character and `?` matches exactly one
character. Validated allowlist patterns never contain bracket classes, so
`[...]` handling is not modelled: every character other than `*` and `?`
matches itself literally. The matcher is written with an explicit fuel
argument (structural recursion) so that the kernel can evaluate it on
concrete inputs; `s.length + p.length + 1` steps always suffice.
-/

def globMatchF : Nat → List Char → List Char → Bool
  | 0, _, _ => false
  | f + 1, s, p =>
    match s, p with
    | [], [] => true
    | [], q :: ps => q = '*' && globMatchF f [] ps
    | _ :: _, [] => false
    | c :: cs, q :: ps =>
      if q = '*' then globMatchF f (c :: cs) ps || globMatchF f cs (q :: ps)
      else if q = '?' then globMatchF f cs ps
      else q = c && globMatchF f cs ps

/-- `fnmatch`-style glob matching of string `s` against pattern `p`. -/
def globMatch (s p : List Char) : Bool :=
  globMatchF (s.length + p.length + 1) s p

theorem globMatchF_succ_nil_nil (f : Nat) : globMatchF (f + 1) [] [] = true := rfl

theorem globMatchF_succ_nil_cons (f : Nat) (q : Char) (ps : List Char) :
    globMatchF (f + 1) [] (q :: ps) = (q = '*' && globMatchF f [] ps) := rfl

theorem globMatchF_succ_cons_nil (f : Nat) (c : Char) (cs : List Char) :
    globMatchF (f + 1) (c :: cs) [] = false := rfl

theorem globMatchF_succ_cons_cons (f : Nat) (c : Char) (cs : List Char)
    (q : Char) (ps : List Char) :
    globMatchF (f + 1) (c :: cs) (q :: ps) =
      if q = '*' then globMatchF f (c :: cs) ps || globMatchF f cs (q :: ps)
      else if q = '?' then globMatchF f cs ps
      else (q = c && globMatchF f cs ps) := rfl

theorem globMatchF_congr :
    ∀ f₁ f₂ s p, s.length + p.length < f₁ → s.length + p.length < f₂ →
      globMatchF f₁ s p = globMatchF f₂ s p := by
  intro f₁
  induction f₁ with
  | zero => intro f₂ s p h1 _; omega
  | succ f ih =>
    intro f₂ s p h1 h2
    match f₂, s, p with
    | 0, s, p => omega
    | g + 1, [], [] => rfl
    | g + 1, [], q :: ps =>
      rw [globMatchF_succ_nil_cons, globMatchF_succ_nil_cons,
        ih g [] ps (by simp at h1 ⊢; omega) (by simp at h2 ⊢; omega)]
    | g + 1, c :: cs, [] => rfl
    | g + 1, c :: cs, q :: ps =>
      rw [globMatchF_succ_cons_cons, globMatchF_succ_cons_cons]
      by_cases hq : q = '*'
      · rw [if_pos hq, if_pos hq,
          ih g (c :: cs) ps (by simp at h1 ⊢; omega) (by simp at h2 ⊢; omega),
          ih g cs (q :: ps) (by simp at h1 ⊢; omega) (by simp at h2 ⊢; omega)]
      · rw [if_neg hq, if_neg hq]
        by_cases hq2 : q = '?'
        · rw [if_pos hq2, if_pos hq2]
          exact ih g cs ps (by simp at h1 ⊢; omega) (by simp at h2 ⊢; omega)
        · rw [if_neg hq2, if_neg hq2,
            ih g cs ps (by simp at h1 ⊢; omega) (by simp at h2 ⊢; omega)]

theorem globMatchF_eq (f : Nat) (s p : List Char)
    (h : s.length + p.length < f) : globMatchF f s p = globMatch s p :=
  globMatchF_congr f (s.length + p.length + 1) s p h (by omega)

theorem globMatch_nil_nil : globMatch [] [] = true := rfl

theorem globMatch_nil_cons (q : Char) (ps : List Char) :
    globMatch [] (q :: ps) = (q = '*' && globMatch [] ps) := by
  have h1 : globMatch [] (q :: ps) =
      (q = '*' && globMatchF (0 + ps.length + 1) [] ps) := rfl
  rw [h1, globMatchF_eq _ _ _ (by simp)]

theorem globMatch_cons_nil (c : Char) (cs : List Char) :
    globMatch (c :: cs) [] = false := rfl

theorem globMatch_cons_cons (c : Char) (cs : List Char) (q : Char) (ps : List Char) :
    globMatch (c :: cs) (q :: ps) =
      if q = '*' then globMatch (c :: cs) ps || globMatch cs (q :: ps)
      else if q = '?' then globMatch cs ps
      else (q = c && globMatch cs ps) := by
  have h1 : globMatch (c :: cs) (q :: ps) =
      if q = '*' then globMatchF (cs.length + 1 + ps.length + 1) (c :: cs) ps ||
          globMatchF (cs.length + 1 + ps.length + 1) cs (q :: ps)
      else if q = '?' then globMatchF (cs.length + 1 + ps.length + 1) cs ps
      else (q = c && globMatchF (cs.length + 1 + ps.length + 1) cs ps) := rfl
  rw [h1, globMatchF_eq _ (c :: cs) ps (by simp only [List.length_cons]; omega),
    globMatchF_eq _ cs (q :: ps) (by simp only [List.length_cons]; omega),
    globMatchF_eq _ cs ps (by omega)]

/-- Python `fnmatch.fnmatch(name, pattern)` on POSIX (no bracket classes). -/
def fnmatch (name pattern : String) : Bool :=
  globMatch name.data pattern.data

/-!
## Spec-side glob semantics

For the refinement claim about `is_allowed`, the specification's own
wording of the matching semantics is modelled separately: `*` matches zero
or more of any character over the full string, every other character
(including `?`) matches itself literally, case-sensitively.
-/

/-- Modelled from the spec's words: glob semantics where `*` = zero or more
of any character, applied to the full string, case-sensitive; all other
characters are literal. -/
def specGlobF : Nat → List Char → List Char → Bool
  | 0, _, _ => false
  | f + 1, s, p =>
    match s, p with
    | [], [] => true
    | [], q :: ps => q = '*' && specGlobF f [] ps
    | _ :: _, [] => false
    | c :: cs, q :: ps =>
      if q = '*' then specGlobF f (c :: cs) ps || specGlobF f cs (q :: ps)
      else q = c && specGlobF f cs ps

/-- Spec-side glob matching of string `s` against pattern `p`. -/
def specGlob (s p : List Char) : Bool :=
  specGlobF (s.length + p.length + 1) s p

theorem specGlobF_succ_nil_cons (f : Nat) (q : Char) (ps : List Char) :
    specGlobF (f + 1) [] (q :: ps) = (q = '*' && specGlobF f [] ps) := rfl

theorem specGlobF_succ_cons_cons (f : Nat) (c : Char) (cs : List Char)
    (q : Char) (ps : List Char) :
    specGlobF (f + 1) (c :: cs) (q :: ps) =
      if q = '*' then specGlobF f (c :: cs) ps || specGlobF f cs (q :: ps)
      else (q = c && specGlobF f cs ps) := rfl

theorem specGlobF_congr :
    ∀ f₁ f₂ s p, s.length + p.length < f₁ → s.length + p.length < f₂ →
      specGlobF f₁ s p = specGlobF f₂ s p := by
  intro f₁
  induction f₁ with
  | zero => intro f₂ s p h1 _; omega
  | succ f ih =>
    intro f₂ s p h1 h2
    match f₂, s, p with
    | 0, s, p => omega
    | g + 1, [], [] => rfl
    | g + 1, [], q :: ps =>
      rw [specGlobF_succ_nil_cons, specGlobF_succ_nil_cons,
        ih g [] ps (by simp at h1 ⊢; omega) (by simp at h2 ⊢; omega)]
    | g + 1, c :: cs, [] => rfl
    | g + 1, c :: cs, q :: ps =>
      rw [specGlobF_succ_cons_cons, specGlobF_succ_cons_cons]
      by_cases hq : q = '*'
      · rw [if_pos hq, if_pos hq,
          ih g (c :: cs) ps (by simp only [List.length_cons] at h1 h2 ⊢; omega)
            (by simp only [List.length_cons] at h2 ⊢; omega),
          ih g cs (q :: ps) (by simp only [List.length_cons] at h1 ⊢; omega)
            (by simp only [List.length_cons] at h2 ⊢; omega)]
      · rw [if_neg hq, if_neg hq,
          ih g cs ps (by simp only [List.length_cons] at h1 ⊢; omega)
            (by simp only [List.length_cons] at h2 ⊢; omega)]

theorem specGlobF_eq (f : Nat) (s p : List Char)
    (h : s.length + p.length < f) : specGlobF f s p = specGlob s p :=
  specGlobF_congr f (s.length + p.length + 1) s p h (by omega)

theorem specGlob_nil_cons (q : Char) (ps : List Char) :
    specGlob [] (q :: ps) = (q = '*' && specGlob [] ps) := by
  have h1 : specGlob [] (q :: ps) =
      (q = '*' && specGlobF (0 + ps.length + 1) [] ps) := rfl
  rw [h1, specGlobF_eq _ _ _ (by simp)]

theorem specGlob_cons_nil (c : Char) (cs : List Char) :
    specGlob (c :: cs) [] = false := rfl

theorem specGlob_cons_cons (c : Char) (cs : List Char) (q : Char) (ps : List Char) :
    specGlob (c :: cs) (q :: ps) =
      if q = '*' then specGlob (c :: cs) ps || specGlob cs (q :: ps)
      else (q = c && specGlob cs ps) := by
  have h1 : specGlob (c :: cs) (q :: ps) =
      if q = '*' then specGlobF (cs.length + 1 + ps.length + 1) (c :: cs) ps ||
          specGlobF (cs.length + 1 + ps.length + 1) cs (q :: ps)
      else (q = c && specGlobF (cs.length + 1 + ps.length + 1) cs ps) := rfl
  rw [h1, specGlobF_eq _ (c :: cs) ps (by simp only [List.length_cons]; omega),
    specGlobF_eq _ cs (q :: ps) (by simp only [List.length_cons]; omega),
    specGlobF_eq _ cs ps (by omega)]

/-- On patterns that contain no `?`, the `fnmatch` glob and the spec's
star-only glob semantics agree. -/
theorem globMatch_eq_specGlob :
    ∀ n s p, s.length + p.length ≤ n → '?' ∉ p → globMatch s p = specGlob s p := by
  intro n
  induction n with
  | zero =>
    intro s p h _
    match s, p with
    | [], [] => rfl
    | [], q :: ps => simp at h
    | c :: cs, p => simp only [List.length_cons] at h; omega
  | succ n ih =>
    intro s p h hq
    match s, p with
    | [], [] => rfl
    | [], q :: ps =>
      rw [globMatch_nil_cons, specGlob_nil_cons,
        ih [] ps (by simp at h ⊢; omega) (fun hm => hq (List.mem_cons_of_mem _ hm))]
    | c :: cs, [] => rfl
    | c :: cs, q :: ps =>
      have hq1 : q ≠ '?' := fun he => hq (he ▸ List.mem_cons_self q ps)
      have hqs : '?' ∉ ps := fun hm => hq (List.mem_cons_of_mem _ hm)
      rw [globMatch_cons_cons, specGlob_cons_cons]
      by_cases hstar : q = '*'
      · rw [if_pos hstar, if_pos hstar,
          ih (c :: cs) ps (by simp only [List.length_cons] at h ⊢; omega) hqs,
          ih cs (q :: ps) (by simp only [List.length_cons] at h ⊢; omega) hq]
      · rw [if_neg hstar, if_neg hstar, if_neg hq1,
          ih cs ps (by simp only [List.length_cons] at h ⊢; omega) hqs]

/-- A lone `*` pattern matches every string. -/
theorem globMatch_star (s : List Char) : globMatch s ['*'] = true := by
  induction s with
  | nil => rfl
  | cons c cs ih =>
    rw [globMatch_cons_cons, if_pos rfl, globMatch_cons_nil, ih]
    rfl

/-- Matching against a pattern that starts with a literal (glob-free) run
consumes that run from the string one character at a time. -/
theorem globMatch_lit_append (lit : List Char)
    (hlit : ∀ c ∈ lit, c ≠ '*' ∧ c ≠ '?') (s p : List Char) :
    globMatch (lit ++ s) (lit ++ p) = globMatch s p := by
  induction lit with
  | nil => rfl
  | cons c cs ih =>
    have hc := hlit c (List.mem_cons_self c cs)
    have hcs : ∀ x ∈ cs, x ≠ '*' ∧ x ≠ '?' :=
      fun x hx => hlit x (List.mem_cons_of_mem _ hx)
    rw [List.cons_append, List.cons_append, globMatch_cons_cons,
      if_neg hc.1, if_neg hc.2, ih hcs]
    simp

/-- Matching against `lit ++ [*]`, where `lit` is a literal run, holds
exactly when `lit` is an initial run of the string. -/
theorem globMatch_lit_star_iff (lit : List Char)
    (hlit : ∀ c ∈ lit, c ≠ '*' ∧ c ≠ '?') (s : List Char) :
    globMatch s (lit ++ ['*']) = true ↔ ∃ t, s = lit ++ t := by
  induction lit generalizing s with
  | nil =>
    simp only [List.nil_append]
    exact ⟨fun _ => ⟨s, rfl⟩, fun _ => globMatch_star s⟩
  | cons c cs ih =>
    have hc := hlit c (List.mem_cons_self c cs)
    have hcs : ∀ x ∈ cs, x ≠ '*' ∧ x ≠ '?' :=
      fun x hx => hlit x (List.mem_cons_of_mem _ hx)
    match s with
    | [] =>
      rw [List.cons_append, globMatch_nil_cons]
      simp [hc.1]
    | x :: xs =>
      rw [List.cons_append, globMatch_cons_cons, if_neg hc.1, if_neg hc.2]
      simp only [Bool.and_eq_true, decide_eq_true_eq]
      constructor
      · rintro ⟨hcx, hm⟩
        obtain ⟨t, ht⟩ := (ih hcs xs).mp hm
        exact ⟨t, by rw [List.cons_append, ← hcx, ht]⟩
      · rintro ⟨t, ht⟩
        rw [List.cons_append] at ht
        injection ht with h1 h2
        exact ⟨h1.symm, (ih hcs xs).mpr ⟨t, h2⟩⟩

/-!
## ServiceAllowlist (`security.py`)
-/

/-- First character of the token regex `[a-z_][a-z0-9_]*`. -/
def isTokenStart (c : Char) : Bool := ('a' ≤ c && c ≤ 'z') || c = '_'

/-- Later characters of the token regex `[a-z_][a-z0-9_]*`. -/
def isTokenChar (c : Char) : Bool := isTokenStart c || ('0' ≤ c && c ≤ '9')

/-- `re.match(r"^[a-z_][a-z0-9_]*$", tok)` on a whole string. -/
def tokenOk : List Char → Bool
  | [] => false
  | c :: cs => isTokenStart c && cs.all isTokenChar

theorem isTokenChar_not_special (c : Char) (h : isTokenChar c = true) :
    c ≠ '*' ∧ c ≠ '?' ∧ c ≠ '.' := by
  refine ⟨?_, ?_, ?_⟩ <;> rintro rfl <;> exact absurd h (by decide)

theorem isTokenStart_char (c : Char) (h : isTokenStart c = true) :
    isTokenChar c = true := by
  simp [isTokenChar, h]

theorem tokenOk_chars (l : List Char) (h : tokenOk l = true) :
    ∀ c ∈ l, isTokenChar c = true := by
  match l with
  | [] => exact fun c hc => absurd hc (List.not_mem_nil c)
  | c :: cs =>
    simp only [tokenOk, Bool.and_eq_true, List.all_eq_true] at h
    intro x hx
    rcases List.mem_cons.mp hx with h1 | h2
    · exact h1 ▸ isTokenStart_char c h.1
    · exact h.2 x h2

theorem tokenOk_no_special (l : List Char) (h : tokenOk l = true) :
    ∀ c ∈ l, c ≠ '*' ∧ c ≠ '?' ∧ c ≠ '.' :=
  fun c hc => isTokenChar_not_special c (tokenOk_chars l h c hc)

/-- If two dot-free runs are each followed by a dot inside equal lists, the
runs and the tails coincide. -/
theorem dotfree_append_inj :
    ∀ a b u v : List Char, '.' ∉ a → '.' ∉ b →
      a ++ '.' :: u = b ++ '.' :: v → a = b ∧ u = v := by
  intro a
  induction a with
  | nil =>
    intro b u v _ hb he
    match b with
    | [] => simpa using he
    | x :: bs =>
      rw [List.nil_append, List.cons_append] at he
      injection he with h1 _
      exact absurd (h1 ▸ List.mem_cons_self x bs) hb
  | cons x xs ih =>
    intro b u v ha hb he
    match b with
    | [] =>
      rw [List.cons_append, List.nil_append] at he
      injection he with h1 _
      exact absurd (h1 ▸ List.mem_cons_self x xs) ha
    | y :: bs =>
      rw [List.cons_append, List.cons_append] at he
      injection he with h1 h2
      have hxs : '.' ∉ xs := fun hm => ha (List.mem_cons_of_mem _ hm)
      have hbs : '.' ∉ bs := fun hm => hb (List.mem_cons_of_mem _ hm)
      obtain ⟨hab, huv⟩ := ih bs u v hxs hbs h2
      exact ⟨by rw [h1, hab], huv⟩

/-- Python `pattern.split(".")` restricted to the part before and after the
first dot (with exactly one dot present these are the two split fields). -/
def splitDot : List Char → List Char × List Char
  | [] => ([], [])
  | c :: cs => if c = '.' then ([], cs) else
    ((splitDot cs).1.cons c, (splitDot cs).2)

theorem splitDot_recon (l : List Char) (h : '.' ∈ l) :
    l = (splitDot l).1 ++ '.' :: (splitDot l).2 ∧ '.' ∉ (splitDot l).1 := by
  induction l with
  | nil => exact absurd h (List.not_mem_nil _)
  | cons c cs ih =>
    by_cases hc : c = '.'
    · subst hc
      simp [splitDot]
    · have hcs : '.' ∈ cs := by
        rcases List.mem_cons.mp h with h1 | h2
        · exact absurd h1.symm hc
        · exact h2
      obtain ⟨h1, h2⟩ := ih hcs
      constructor
      · rw [splitDot, if_neg hc]
        simpa using h1
      · rw [splitDot, if_neg hc]
        intro hm
        rcases List.mem_cons.mp (by simpa using hm) with h3 | h4
        · exact hc h3.symm
        · exact h2 h4

/-- `ServiceAllowlist._validate_pattern`: accepts `*`, or `domain.service` /
`domain.*` with exactly one dot and token-shaped fields. -/
def validate_pattern (pattern : String) : Bool :=
  if pattern = "*" then true
  else if pattern.data.count '.' ≠ 1 then false
  else
    tokenOk (splitDot pattern.data).1 &&
      ((splitDot pattern.data).2 = ['*'] || tokenOk (splitDot pattern.data).2)

/-- `ServiceAllowlist` (`security.py`): validated patterns plus the
`allow_all` flag recording that `*` was present in the input. -/
structure ServiceAllowlist where
  patterns : List String := []
  allow_all : Bool := false

/-- `ServiceAllowlist.is_allowed(domain, service)`: `allow_all`
short-circuits to true, an empty pattern list to false; otherwise the
pattern list is scanned for an exact or `fnmatch` glob match against
`"domain.service"` (the for-loop returning on first match equals `any`). -/
def ServiceAllowlist.is_allowed (al : ServiceAllowlist)
    (domain service : String) : Bool :=
  if al.allow_all then true
  else if al.patterns.isEmpty then false
  else
    let full_service := domain ++ "." ++ service
    al.patterns.any fun pattern =>
      pattern == full_service || fnmatch full_service pattern

/-- `ServiceAllowlist.get_denial_message(domain, service)`. -/
def ServiceAllowlist.get_denial_message (al : ServiceAllowlist)
    (domain service : String) : String :=
  let full_service := domain ++ "." ++ service
  if al.patterns.isEmpty then
    "Service call " ++ apos ++ full_service ++ apos ++
      " denied: no services are allowlisted. " ++
      "Set HA_ALLOWED_SERVICES to enable service calls."
  else
    "Service call " ++ apos ++ full_service ++ apos ++
      " denied: not in allowlist. " ++
      "Allowed patterns: " ++ String.intercalate ", " al.patterns

/-- Python `str.strip()` (leading and trailing whitespace removed). -/
def pyStrip (l : List Char) : List Char :=
  ((l.dropWhile Char.isWhitespace).reverse.dropWhile Char.isWhitespace).reverse

/-- `ServiceAllowlist.from_env(env_value)`: comma-split, strip, drop empty
fields; a `*` field keeps every field and sets `allow_all`; otherwise
invalid patterns are dropped by `_validate_pattern`. -/
def ServiceAllowlist.from_env (env_value : Option String) : ServiceAllowlist :=
  match env_value with
  | none => { patterns := [], allow_all := false }
  | some s =>
    if pyStrip s.data = [] then { patterns := [], allow_all := false }
    else
      let patterns : List String :=
        (((s.data.splitOn ',').map pyStrip).filter (· ≠ [])).map
          fun l => String.mk l
      if "*" ∈ patterns then { patterns := patterns, allow_all := true }
      else { patterns := patterns.filter validate_pattern, allow_all := false }

/-- An allowlist whose patterns all passed `_validate_pattern` whenever
`allow_all` is unset — the invariant `from_env` establishes. -/
def AllowlistValid (al : ServiceAllowlist) : Prop :=
  al.allow_all = false → ∀ p ∈ al.patterns, validate_pattern p = true

theorem from_env_valid (env_value : Option String) :
    AllowlistValid (ServiceAllowlist.from_env env_value) := by
  intro hfalse p hp
  match env_value with
  | none => exact absurd hp (List.not_mem_nil p)
  | some s =>
    rw [ServiceAllowlist.from_env] at hfalse hp
    by_cases h0 : pyStrip s.data = []
    · rw [if_pos h0] at hp
      exact absurd hp (List.not_mem_nil p)
    · rw [if_neg h0] at hfalse hp
      by_cases hstar : "*" ∈ (((s.data.splitOn ',').map pyStrip).filter
          (· ≠ [])).map fun l => String.mk l
      · rw [if_pos hstar] at hfalse
        exact absurd hfalse (by simp)
      · rw [if_neg hstar] at hp
        exact (List.mem_filter.mp hp).2

theorem validate_pattern_no_qmark (p : String) (h : validate_pattern p = true) :
    '?' ∉ p.data := by
  rw [validate_pattern] at h
  by_cases hstar : p = "*"
  · subst hstar; decide
  · rw [if_neg hstar] at h
    by_cases hcount : p.data.count '.' ≠ 1
    · rw [if_pos hcount] at h; simp at h
    · rw [if_neg hcount] at h
      push_neg at hcount
      have hmem : '.' ∈ p.data := by
        by_contra hnm
        rw [List.count_eq_zero.mpr hnm] at hcount
        exact one_ne_zero hcount.symm
      obtain ⟨hrecon, _⟩ := splitDot_recon p.data hmem
      simp only [Bool.and_eq_true, Bool.or_eq_true, decide_eq_true_eq] at h
      intro hqm
      rw [hrecon] at hqm
      rcases List.mem_append.mp hqm with h1 | h2
      · exact (tokenOk_no_special _ h.1 '?' h1).2.1 rfl
      · rcases List.mem_cons.mp h2 with h3 | h4
        · exact absurd h3 (by decide)
        · rcases h.2 with h5 | h6
          · rw [h5] at h4
            exact absurd h4 (by decide)
          · exact (tokenOk_no_special _ h6 '?' h4).2.1 rfl

/-- C2: `is_allowed` returns true unconditionally when `allow_all` is set;
false when `allow_all` is unset and the pattern list is empty; and
otherwise true iff `domain.service` equals some configured pattern
literally or matches one under the spec's glob semantics (`*` = zero or
more of any character over the full `domain.service` string,
case-sensitive). The validity hypothesis is the invariant `from_env`
establishes for every configured allowlist (`from_env_valid`). -/
theorem is_allowed_spec (al : ServiceAllowlist) (hval : AllowlistValid al)
    (domain service : String) :
    (al.allow_all = true → al.is_allowed domain service = true) ∧
    (al.allow_all = false → al.patterns = [] →
      al.is_allowed domain service = false) ∧
    (al.allow_all = false → al.patterns ≠ [] →
      (al.is_allowed domain service = true ↔
        ∃ p ∈ al.patterns, p = domain ++ "." ++ service ∨
          specGlob (domain ++ "." ++ service).data p.data = true)) := by
  refine ⟨?_, ?_, ?_⟩
  · intro h
    simp [ServiceAllowlist.is_allowed, h]
  · intro h1 h2
    simp [ServiceAllowlist.is_allowed, h1, h2]
  · intro h1 h2
    have hpt : ∀ p ∈ al.patterns,
        ((p == (domain ++ "." ++ service) ||
          fnmatch (domain ++ "." ++ service) p) = true ↔
          (p = domain ++ "." ++ service ∨
            specGlob (domain ++ "." ++ service).data p.data = true)) := by
      intro p hp
      have hq : '?' ∉ p.data := validate_pattern_no_qmark p (hval h1 p hp)
      rw [Bool.or_eq_true, beq_iff_eq, fnmatch,
        globMatch_eq_specGlob ((domain ++ "." ++ service).data.length +
          p.data.length) (domain ++ "." ++ service).data p.data le_rfl hq]
    rw [ServiceAllowlist.is_allowed, if_neg (by simp [h1]),
      if_neg (by simp [List.isEmpty_iff, h2])]
    rw [List.any_eq_true]
    exact ⟨fun ⟨p, hp, h⟩ => ⟨p, hp, (hpt p hp).mp h⟩,
      fun ⟨p, hp, h⟩ => ⟨p, hp, (hpt p hp).mpr h⟩⟩

theorem is_allowed_spec_witness :
    ({ patterns := ["light.*"], allow_all := false } :
      ServiceAllowlist).is_allowed "light" "turn_on" = true :=
  ((is_allowed_spec { patterns := ["light.*"], allow_all := false }
      (by intro _ p hp; rw [List.mem_singleton.mp hp]; decide)
      "light" "turn_on").2.2 rfl (by decide)).mpr
    ⟨"light.*", by decide, Or.inr (by decide)⟩

/-- C3: with the single valid wildcard pattern `d.*` configured,
`is_allowed` accepts every service under domain `d` and rejects every call
whose domain is any other (token-shaped) domain. -/
theorem wildcard_pattern_domain_scope (d d' s : String)
    (hd : tokenOk d.data = true) (hd' : tokenOk d'.data = true)
    (hne : d ≠ d') :
    ({ patterns := [d ++ ".*"], allow_all := false } :
        ServiceAllowlist).is_allowed d s = true ∧
    ({ patterns := [d ++ ".*"], allow_all := false } :
        ServiceAllowlist).is_allowed d' s = false := by
  have hlit : ∀ c ∈ d.data ++ ['.'], c ≠ '*' ∧ c ≠ '?' := by
    intro c hc
    rcases List.mem_append.mp hc with h1 | h2
    · exact ⟨(tokenOk_no_special d.data hd c h1).1,
        (tokenOk_no_special d.data hd c h1).2.1⟩
    · rw [List.mem_singleton.mp h2]
      exact ⟨by decide, by decide⟩
  have hdot : '.' ∉ d.data := fun hm => (tokenOk_no_special d.data hd '.' hm).2.2 rfl
  have hdot' : '.' ∉ d'.data := fun hm => (tokenOk_no_special d'.data hd' '.' hm).2.2 rfl
  have hpat : (d ++ ".*").data = (d.data ++ ['.']) ++ ['*'] := by
    simp [String.data_append]
  have hpat2 : (d ++ ".*").data = d.data ++ '.' :: ['*'] := by
    simp [String.data_append]
  have hfull : (d ++ "." ++ s).data = (d.data ++ ['.']) ++ s.data := by
    simp [String.data_append]
  have hfull' : (d' ++ "." ++ s).data = d'.data ++ '.' :: s.data := by
    simp [String.data_append]
  constructor
  · have hm : fnmatch (d ++ "." ++ s) (d ++ ".*") = true := by
      rw [fnmatch, hfull, hpat]
      exact (globMatch_lit_star_iff (d.data ++ ['.']) hlit _).mpr ⟨s.data, rfl⟩
    simp [ServiceAllowlist.is_allowed, hm]
  · have hbeq : (d ++ ".*") ≠ (d' ++ "." ++ s) := by
      intro he
      have hdata := congrArg String.data he
      rw [hpat2, hfull'] at hdata
      exact hne (String.ext (dotfree_append_inj d.data d'.data _ _ hdot hdot' hdata).1)
    have hm : fnmatch (d' ++ "." ++ s) (d ++ ".*") = false := by
      by_contra hc
      have ht : fnmatch (d' ++ "." ++ s) (d ++ ".*") = true :=
        eq_true_of_ne_false hc
      rw [fnmatch, hfull', hpat] at ht
      obtain ⟨t, htt⟩ := (globMatch_lit_star_iff (d.data ++ ['.']) hlit _).mp ht
      rw [List.append_assoc, List.singleton_append] at htt
      exact hne (String.ext (dotfree_append_inj d'.data d.data _ _ hdot' hdot htt).1.symm)
    simp [ServiceAllowlist.is_allowed, hm, hbeq]

theorem wildcard_pattern_domain_scope_witness :
    ({ patterns := ["light" ++ ".*"], allow_all := false } :
        ServiceAllowlist).is_allowed "light" "turn_on" = true ∧
    ({ patterns := ["light" ++ ".*"], allow_all := false } :
        ServiceAllowlist).is_allowed "switch" "turn_on" = false :=
  wildcard_pattern_domain_scope "light" "switch" "turn_on"
    (by decide) (by decide) (by decide)

/-!
## Response truncation (`ha_rest.py`, `_truncate_response`)

The element type and its serialization are abstracted (`ser`); the list
serialization is Python's `json.dumps` composition for lists with the
default separators: `"[" + ", ".join(items) + "]"`. The halving loop
(`while items > 0: items = items // 2; ...`) is written with fuel so the
kernel can evaluate it; `items + 1` iterations always suffice.
-/

/-- Length-relevant shape of `json.dumps` on a list, given the
serializations of the elements. -/
def serList {α : Type} (ser : α → String) (l : List α) : String :=
  "[" ++ String.intercalate ", " (l.map ser) ++ "]"

def halveLoopF (fits : Nat → Bool) : Nat → Nat → Option Nat
  | 0, _ => none
  | f + 1, items =>
    if items = 0 then none
    else if fits (items / 2) then some (items / 2)
    else halveLoopF fits f (items / 2)

/-- The halving search of `_truncate_response`: repeatedly halve the count
and return the first count whose serialization fits. -/
def halveLoop (fits : Nat → Bool) (items : Nat) : Option Nat :=
  halveLoopF fits (items + 1) items

def halveProbesF : Nat → Nat → List Nat
  | 0, _ => []
  | f + 1, n => if n = 0 then [] else (n / 2) :: halveProbesF f (n / 2)

/-- The sequence of candidate prefix lengths probed by the halving search,
starting from `n` items: `n/2, n/4, ...` down to `0`. -/
def halveProbes (n : Nat) : List Nat :=
  halveProbesF (n + 1) n

theorem halveLoopF_congr (fits : Nat → Bool) :
    ∀ f₁ f₂ n, n < f₁ → n < f₂ → halveLoopF fits f₁ n = halveLoopF fits f₂ n := by
  intro f₁
  induction f₁ with
  | zero => intro f₂ n h1 _; omega
  | succ f ih =>
    intro f₂ n h1 h2
    match f₂ with
    | 0 => omega
    | g + 1 =>
      show (if n = 0 then none else if fits (n / 2) then some (n / 2)
          else halveLoopF fits f (n / 2)) =
        (if n = 0 then none else if fits (n / 2) then some (n / 2)
          else halveLoopF fits g (n / 2))
      by_cases h0 : n = 0
      · rw [if_pos h0, if_pos h0]
      · rw [if_neg h0, if_neg h0]
        by_cases hf : fits (n / 2)
        · rw [if_pos hf, if_pos hf]
        · rw [if_neg hf, if_neg hf, ih g (n / 2) (by omega) (by omega)]

theorem halveLoop_pos (fits : Nat → Bool) (n : Nat) (h : 0 < n) :
    halveLoop fits n =
      if fits (n / 2) then some (n / 2) else halveLoop fits (n / 2) := by
  show (if n = 0 then none else if fits (n / 2) then some (n / 2)
      else halveLoopF fits n (n / 2)) = _
  rw [if_neg (by omega)]
  by_cases hf : fits (n / 2)
  · rw [if_pos hf, if_pos hf]
  · rw [if_neg hf, if_neg hf]
    exact halveLoopF_congr fits n (n / 2 + 1) (n / 2) (by omega) (by omega)

theorem halveProbesF_congr :
    ∀ f₁ f₂ n, n < f₁ → n < f₂ → halveProbesF f₁ n = halveProbesF f₂ n := by
  intro f₁
  induction f₁ with
  | zero => intro f₂ n h1 _; omega
  | succ f ih =>
    intro f₂ n h1 h2
    match f₂ with
    | 0 => omega
    | g + 1 =>
      show (if n = 0 then [] else (n / 2) :: halveProbesF f (n / 2)) =
        (if n = 0 then [] else (n / 2) :: halveProbesF g (n / 2))
      by_cases h0 : n = 0
      · rw [if_pos h0, if_pos h0]
      · rw [if_neg h0, if_neg h0, ih g (n / 2) (by omega) (by omega)]

theorem halveProbes_pos (n : Nat) (h : 0 < n) :
    halveProbes n = (n / 2) :: halveProbes (n / 2) := by
  show (if n = 0 then [] else (n / 2) :: halveProbesF n (n / 2)) = _
  rw [if_neg (by omega)]
  rw [halveProbesF_congr n (n / 2 + 1) (n / 2) (by omega) (by omega)]
  rfl

theorem halveProbes_le (n : Nat) : ∀ j ∈ halveProbes n, j ≤ n / 2 := by
  induction n using Nat.strong_induction_on with
  | _ n ih =>
    match n with
    | 0 => intro j hj; exact absurd hj (List.not_mem_nil j)
    | m + 1 =>
      intro j hj
      rw [halveProbes_pos (m + 1) (by omega)] at hj
      rcases List.mem_cons.mp hj with h1 | h2
      · omega
      · have := ih ((m + 1) / 2) (by omega) j h2
        omega

theorem halveLoop_spec (fits : Nat → Bool) :
    ∀ n i, halveLoop fits n = some i →
      fits i = true ∧ i ∈ halveProbes n ∧
        ∀ j ∈ halveProbes n, fits j = true → j ≤ i := by
  intro n
  induction n using Nat.strong_induction_on with
  | _ n ih =>
    intro i hl
    match n with
    | 0 => exact absurd hl (by simp [halveLoop, halveLoopF])
    | m + 1 =>
      rw [halveLoop_pos fits (m + 1) (by omega)] at hl
      rw [halveProbes_pos (m + 1) (by omega)]
      by_cases hf : fits ((m + 1) / 2)
      · rw [if_pos hf] at hl
        injection hl with hi
        subst hi
        refine ⟨hf, List.mem_cons_self _ _, ?_⟩
        intro j hj _
        rcases List.mem_cons.mp hj with h1 | h2
        · omega
        · have := halveProbes_le ((m + 1) / 2) j h2
          omega
      · rw [if_neg hf] at hl
        obtain ⟨h1, h2, h3⟩ := ih ((m + 1) / 2) (by omega) i hl
        refine ⟨h1, List.mem_cons_of_mem _ h2, ?_⟩
        intro j hj hfj
        rcases List.mem_cons.mp hj with hj1 | hj2
        · rw [hj1] at hfj; exact absurd hfj hf
        · exact h3 j hj2 hfj

/-- The truncation envelope shapes produced by `_truncate_response`:
within budget, the halved-list envelope, or the non-recoverable marker. -/
inductive TruncResult (α : Type) where
  | notTruncated (data : List α)
  | truncatedList (total_items returned_items max_bytes : Nat) (data : List α)
  | truncatedOther (max_bytes : Nat)
deriving DecidableEq

/-- `_truncate_response(data, max_bytes)` for sequence inputs: return the
data unwrapped if its serialization fits, else halve the item count until
a prefix fits, else (nothing fits, `items` reached `0` without a fitting
probe) the non-recoverable marker. -/
def truncate_response {α : Type} (ser : α → String) (data : List α)
    (max_bytes : Nat) : TruncResult α :=
  if (serList ser data).length ≤ max_bytes then .notTruncated data
  else
    match halveLoop
        (fun i => decide ((serList ser (data.take i)).length ≤ max_bytes))
        data.length with
    | some items => .truncatedList data.length items max_bytes (data.take items)
    | none => .truncatedOther max_bytes

/-- Helper: when a list's serialization exceeds the budget and the result
is the halved-list envelope, the envelope reports the list's length as
`total_items`, the budget as `max_bytes`, and the prefix `data.take
returned_items`, whose serialization fits; and `returned_items` is maximal
among all candidate lengths probed by the halving search whose
serialization fits. -/
theorem truncate_halving_spec {α : Type} (ser : α → String) (data : List α)
    (maxBytes total ret mb : Nat) (pfx : List α)
    (hover : (serList ser data).length > maxBytes)
    (hres : truncate_response ser data maxBytes =
      TruncResult.truncatedList total ret mb pfx) :
    total = data.length ∧ mb = maxBytes ∧ pfx = data.take ret ∧
    (serList ser pfx).length ≤ maxBytes ∧
    ret ∈ halveProbes data.length ∧
    (∀ j ∈ halveProbes data.length,
      (serList ser (data.take j)).length ≤ maxBytes → j ≤ ret) := by
  rw [truncate_response, if_neg (by omega)] at hres
  cases hh : halveLoop
      (fun i => decide ((serList ser (data.take i)).length ≤ maxBytes))
      data.length with
  | none =>
    rw [hh] at hres
    exact absurd hres (by simp)
  | some items =>
    rw [hh] at hres
    injection hres with e1 e2 e3 e4
    obtain ⟨hf, hmem, hmax⟩ := halveLoop_spec _ data.length items hh
    subst e1 e2 e3
    refine ⟨rfl, rfl, e4.symm, ?_, hmem, ?_⟩
    · rw [← e4]
      exact of_decide_eq_true hf
    · intro j hj hle
      exact hmax j hj (decide_eq_true hle)

theorem zero_mem_halveProbes : ∀ n, 0 < n → (0 : Nat) ∈ halveProbes n := by
  intro n
  induction n using Nat.strong_induction_on with
  | _ n ih =>
    intro h
    match n with
    | m + 1 =>
      rw [halveProbes_pos (m + 1) (by omega)]
      by_cases h2 : (m + 1) / 2 = 0
      · rw [h2]
        exact List.mem_cons_self _ _
      · exact List.mem_cons_of_mem _ (ih ((m + 1) / 2) (by omega) (by omega))

theorem halveLoop_none (fits : Nat → Bool) :
    ∀ n, halveLoop fits n = none → ∀ j ∈ halveProbes n, fits j = false := by
  intro n
  induction n using Nat.strong_induction_on with
  | _ n ih =>
    intro hl j hj
    match n with
    | 0 => exact absurd hj (List.not_mem_nil j)
    | m + 1 =>
      rw [halveLoop_pos fits (m + 1) (by omega)] at hl
      rw [halveProbes_pos (m + 1) (by omega)] at hj
      cases hf : fits ((m + 1) / 2) with
      | true =>
        rw [if_pos hf] at hl
        exact absurd hl (by simp)
      | false =>
        rw [if_neg (by simp [hf])] at hl
        rcases List.mem_cons.mp hj with h1 | h2
        · rw [h1]; exact hf
        · exact ih ((m + 1) / 2) (by omega) hl j h2

/-- C5 counterexample: with `max_bytes = 1` even the empty prefix
(serialized as the 2-byte `[]`) does not fit, the halving search exhausts,
and `_truncate_response` returns the non-recoverable marker instead of the
claimed `total_items`/`returned_items` envelope. -/
theorem truncate_small_budget_cex :
    (serList (fun _ : Nat => "aaaa") [0]).length > 1 ∧
    truncate_response (fun _ : Nat => "aaaa") [0] 1 =
      TruncResult.truncatedOther 1 ∧
    TruncResult.truncatedOther (α := Nat) 1 ≠
      TruncResult.truncatedList 1 0 1 [] := by
  refine ⟨by decide, by decide, by decide⟩

/-- C5 amended: for every list whose serialization exceeds `max_bytes`,
provided `max_bytes ≥ 2` (so that at least the empty prefix's 2-byte
serialization `[]` fits — below that the non-recoverable marker is
returned instead), `_truncate_response` returns
`{truncated: true, total_items: length, returned_items, max_bytes,
data: prefix}` with `data = data[:returned_items]`, whose serialization is
within `max_bytes`, and `returned_items` maximal among the candidate
lengths probed by the halving search whose serialization fits. -/
theorem truncate_halving_search {α : Type} (ser : α → String)
    (data : List α) (maxBytes : Nat) (hmb : 2 ≤ maxBytes)
    (hover : (serList ser data).length > maxBytes) :
    ∃ ret, truncate_response ser data maxBytes =
        TruncResult.truncatedList data.length ret maxBytes (data.take ret) ∧
      (serList ser (data.take ret)).length ≤ maxBytes ∧
      ret ∈ halveProbes data.length ∧
      (∀ j ∈ halveProbes data.length,
        (serList ser (data.take j)).length ≤ maxBytes → j ≤ ret) := by
  have hlen : 0 < data.length := by
    cases data with
    | nil =>
      exfalso
      have h2 : (serList ser ([] : List α)).length = 2 := rfl
      omega
    | cons a l => simp
  cases hh : halveLoop
      (fun i => decide ((serList ser (data.take i)).length ≤ maxBytes))
      data.length with
  | none =>
    exfalso
    have hcontra := halveLoop_none _ data.length hh 0
      (zero_mem_halveProbes data.length hlen)
    have h2 : (serList ser (data.take 0)).length = 2 := rfl
    rw [h2] at hcontra
    exact absurd hmb (of_decide_eq_false hcontra)
  | some items =>
    obtain ⟨hf, hmem, hmax⟩ := halveLoop_spec _ data.length items hh
    refine ⟨items, ?_, of_decide_eq_true hf, hmem,
      fun j hj hle => hmax j hj (decide_eq_true hle)⟩
    rw [truncate_response, if_neg (by omega), hh]

theorem truncate_halving_search_witness :
    ∃ ret, truncate_response (fun _ : Nat => "aaaa") [0, 1, 2, 3] 10 =
        TruncResult.truncatedList [0, 1, 2, 3].length ret 10
          ([0, 1, 2, 3].take ret) ∧
      (serList (fun _ : Nat => "aaaa") ([0, 1, 2, 3].take ret)).length ≤ 10 ∧
      ret ∈ halveProbes [0, 1, 2, 3].length ∧
      (∀ j ∈ halveProbes [0, 1, 2, 3].length,
        (serList (fun _ : Nat => "aaaa") ([0, 1, 2, 3].take j)).length ≤ 10 →
          j ≤ ret) :=
  truncate_halving_search (fun _ => "aaaa") [0, 1, 2, 3] 10
    (by decide) (by decide)

/-!
## Dispatch and policy gate (`server.py`, `call_tool`)

The transport clients are abstracted as an environment of oracles, one per
client operation, each returning either a value (of an abstract
JSON-serializable result type `V`) or a raised exception from the error
taxonomy. `RaisedErr.unexpected` stands for any exception type outside the
taxonomy, carrying `type(e).__name__` and `str(e)`. A tool-call result is
either a JSON success payload (`_json_response`) or a structured
`{"error": message}` payload (`_error_response`); the `try` body may
return either, and a raised exception is mapped by the `except` clauses.
-/

/-- The exception taxonomy reaching `call_tool`'s `except` clauses. -/
inductive RaisedErr where
  | authError (msg : String)
  | notFound (msg : String)
  | apiError (msg : String)
  | wsError (msg : String)
  | sshDisabled (msg : String)
  | sshError (msg : String)
  | unexpected (kind msg : String)
deriving DecidableEq

/-- The message each `except` clause of `call_tool` puts into the
`_error_response` payload. -/
def exceptionMessage : RaisedErr → String
  | .authError m => "Authentication failed: " ++ m
  | .notFound m => m
  | .apiError m => "Home Assistant API error: " ++ m
  | .wsError m => "WebSocket error: " ++ m
  | .sshDisabled m => m
  | .sshError m => "SSH error: " ++ m
  | .unexpected k m => "Unexpected error: " ++ k ++ ": " ++ m

/-- A tool-call result: `_json_response(v)` or `_error_response(msg)`. -/
inductive Payload (V : Type) where
  | json (v : V)
  | error (msg : String)
deriving DecidableEq

/-- The transport-client operations `call_tool` may invoke, as oracles. -/
structure ClientEnv (V : Type) where
  ping : Except RaisedErr V
  list_entities : Option String → Except RaisedErr V
  get_entity : String → Except RaisedErr V
  search_entities : String → Except RaisedErr V
  get_history : Option String → Int → Except RaisedErr V
  get_logbook : Option String → Int → Except RaisedErr V
  get_error_log : Except RaisedErr V
  get_lovelace_config : Bool → Except RaisedErr V
  call_service : String → String → Option V → Option V → Except RaisedErr V
  ssh_get_logs : String → Int → Except RaisedErr V

/-- The `arguments` mapping of a tool call (absent key = `none`; Python
truthiness of an empty string is modelled explicitly at the use sites). -/
structure Args (V : Type) where
  domain : Option String := none
  service : Option String := none
  entity_id : Option String := none
  query : Option String := none
  hours : Option Int := none
  force : Option Bool := none
  kind : Option String := none
  lines : Option Int := none
  data : Option V := none
  target : Option V := none

/-- The fields of `MCPConfig` (`security.py`) that the dispatch logic
reads; connection fields (URL, token, TLS, SSH endpoint) do not influence
dispatch and are left to the client oracles. -/
structure MCPConfig where
  mode : String := "readonly"
  allowed_services : ServiceAllowlist := {}
  ssh_enable : Bool := false

/-- `MCPConfig.is_readwrite`. -/
def MCPConfig.is_readwrite (c : MCPConfig) : Bool :=
  c.mode == "readwrite"

/-- `hours = min(arguments.get("hours", 24), 168)` in the history/logbook
branches of `call_tool`. -/
def effectiveHours (hours : Option Int) : Int :=
  min (hours.getD 24) 168

/-- The `try` body of `call_tool`: dispatch on the tool name, validate
required arguments and the mode/allowlist/SSH gates (these return
`_error_response` payloads, they do not raise), and invoke the matching
client operation; `.error e` is a raised exception escaping the body. -/
def tryBody {V : Type} (config : MCPConfig) (env : ClientEnv V)
    (name : String) (args : Args V) : Except RaisedErr (Payload V) :=
  if name = "ha_ping" then (env.ping).map .json
  else if name = "ha_list_entities" then
    (env.list_entities args.domain).map .json
  else if name = "ha_get_entity" then
    match args.entity_id with
    | none => .ok (.error "entity_id is required")
    | some e =>
      if e = "" then .ok (.error "entity_id is required")
      else (env.get_entity e).map .json
  else if name = "ha_search_entities" then
    match args.query with
    | none => .ok (.error "query is required")
    | some q =>
      if q = "" then .ok (.error "query is required")
      else (env.search_entities q).map .json
  else if name = "ha_get_history" then
    (env.get_history args.entity_id (effectiveHours args.hours)).map .json
  else if name = "ha_get_logbook" then
    (env.get_logbook args.entity_id (effectiveHours args.hours)).map .json
  else if name = "ha_get_error_log" then (env.get_error_log).map .json
  else if name = "ha_get_lovelace_config" then
    (env.get_lovelace_config (args.force.getD false)).map .json
  else if name = "ha_call_service" then
    if config.is_readwrite = false then
      .ok (.error ("Service calls are disabled in read-only mode. " ++
        "Set HA_MCP_MODE=readwrite to enable."))
    else
      match args.domain, args.service with
      | some domain, some service =>
        if domain = "" ∨ service = "" then
          .ok (.error "domain and service are required")
        else if config.allowed_services.is_allowed domain service = false then
          .ok (.error (config.allowed_services.get_denial_message domain service))
        else
          (env.call_service domain service args.data args.target).map .json
      | _, _ => .ok (.error "domain and service are required")
  else if name = "ha_get_full_logs" then
    if config.ssh_enable = false then
      .ok (.error ("SSH is not enabled. Set HA_SSH_ENABLE=true and configure " ++
        "SSH credentials to use this feature."))
    else
      (env.ssh_get_logs (args.kind.getD "core")
        (min (args.lines.getD 500) 2000)).map .json
  else .ok (.error ("Unknown tool: " ++ name))

/-- `call_tool`: the `try` body's payload, with any raised exception
converted by the `except` clauses into an `_error_response` payload. -/
def call_tool {V : Type} (config : MCPConfig) (env : ClientEnv V)
    (name : String) (args : Args V) : Payload V :=
  match tryBody config env name args with
  | .ok payload => payload
  | .error e => .error (exceptionMessage e)

/-- A concrete environment whose operations all succeed (used only at
concrete instantiations). -/
def pureEnv : ClientEnv Nat where
  ping := .ok 0
  list_entities := fun _ => .ok 0
  get_entity := fun _ => .ok 0
  search_entities := fun _ => .ok 0
  get_history := fun _ _ => .ok 0
  get_logbook := fun _ _ => .ok 0
  get_error_log := .ok 0
  get_lovelace_config := fun _ => .ok 0
  call_service := fun _ _ _ _ => .ok 0
  ssh_get_logs := fun _ _ => .ok 0

/-- A concrete environment whose operations all raise `e` (used only at
concrete instantiations). -/
def raisingEnv (e : RaisedErr) : ClientEnv Nat where
  ping := .error e
  list_entities := fun _ => .error e
  get_entity := fun _ => .error e
  search_entities := fun _ => .error e
  get_history := fun _ _ => .error e
  get_logbook := fun _ _ => .error e
  get_error_log := .error e
  get_lovelace_config := fun _ => .error e
  call_service := fun _ _ _ _ => .error e
  ssh_get_logs := fun _ _ => .error e

/-- C1: in read-write mode with domain and service present, when the
allowlist denies the call the dispatcher returns the denial message as a
(non-raising) error payload; the client environment is universally
quantified and absent from the result, so the REST client's
`call_service` is never consulted. The remaining conjuncts state that the
message names `domain.service` and either lists the configured patterns
or states that none are configured. -/
theorem call_service_denial_gate {V : Type} (config : MCPConfig)
    (env : ClientEnv V) (args : Args V) (domain service : String)
    (hrw : config.is_readwrite = true)
    (hd : args.domain = some domain) (hd2 : domain ≠ "")
    (hs : args.service = some service) (hs2 : service ≠ "")
    (hdeny : config.allowed_services.is_allowed domain service = false) :
    call_tool config env "ha_call_service" args =
      Payload.error
        (config.allowed_services.get_denial_message domain service) ∧
    (config.allowed_services.patterns = [] →
      config.allowed_services.get_denial_message domain service =
        "Service call " ++ apos ++ (domain ++ "." ++ service) ++ apos ++
          " denied: no services are allowlisted. " ++
          "Set HA_ALLOWED_SERVICES to enable service calls.") ∧
    (config.allowed_services.patterns ≠ [] →
      config.allowed_services.get_denial_message domain service =
        "Service call " ++ apos ++ (domain ++ "." ++ service) ++ apos ++
          " denied: not in allowlist. " ++ "Allowed patterns: " ++
          String.intercalate ", " config.allowed_services.patterns) := by
  have hbody : tryBody config env "ha_call_service" args =
      Except.ok (Payload.error
        (config.allowed_services.get_denial_message domain service)) := by
    rw [tryBody]
    rw [if_neg (by decide), if_neg (by decide), if_neg (by decide),
      if_neg (by decide), if_neg (by decide), if_neg (by decide),
      if_neg (by decide), if_neg (by decide), if_pos rfl]
    rw [if_neg (by simp [hrw])]
    simp only [hd, hs]
    rw [if_neg (by rintro (h | h); exact hd2 h; exact hs2 h)]
    rw [if_pos hdeny]
  refine ⟨?_, ?_, ?_⟩
  · rw [call_tool, hbody]
  · intro h
    rw [ServiceAllowlist.get_denial_message, if_pos (by simp [List.isEmpty_iff, h])]
  · intro h
    rw [ServiceAllowlist.get_denial_message, if_neg (by simp [List.isEmpty_iff, h])]

theorem call_service_denial_gate_witness :
    call_tool
      { mode := "readwrite",
        allowed_services := { patterns := ["light.*"], allow_all := false },
        ssh_enable := false }
      pureEnv "ha_call_service"
      { domain := some "switch", service := some "turn_on" } =
    Payload.error
      (ServiceAllowlist.get_denial_message
        { patterns := ["light.*"], allow_all := false } "switch" "turn_on") :=
  (call_service_denial_gate
    { mode := "readwrite",
      allowed_services := { patterns := ["light.*"], allow_all := false },
      ssh_enable := false }
    pureEnv { domain := some "switch", service := some "turn_on" }
    "switch" "turn_on" rfl rfl (by decide) rfl (by decide) (by decide)).1

/-- C6: `call_tool` never propagates an exception: its result is always a
json or error payload; whenever the try body raises `e`, the result is the
structured error payload carrying the except clause's message for `e`; and
exception types outside the known taxonomy are reported generically with
their kind name. -/
theorem call_tool_never_propagates {V : Type} (config : MCPConfig)
    (env : ClientEnv V) (name : String) (args : Args V) :
    ((∃ v, call_tool config env name args = Payload.json v) ∨
      (∃ m, call_tool config env name args = Payload.error m)) ∧
    (∀ e, tryBody config env name args = Except.error e →
      call_tool config env name args = Payload.error (exceptionMessage e)) ∧
    (∀ kind msg, exceptionMessage (RaisedErr.unexpected kind msg) =
      "Unexpected error: " ++ kind ++ ": " ++ msg) := by
  refine ⟨?_, ?_, fun _ _ => rfl⟩
  · cases h : call_tool config env name args with
    | json v => exact Or.inl ⟨v, rfl⟩
    | error m => exact Or.inr ⟨m, rfl⟩
  · intro e he
    rw [call_tool, he]

theorem call_tool_never_propagates_witness :
    call_tool {} (raisingEnv (RaisedErr.unexpected "ValueError" "boom"))
      "ha_ping" {} =
    Payload.error ("Unexpected error: " ++ "ValueError" ++ ": " ++ "boom") :=
  (call_tool_never_propagates {}
    (raisingEnv (RaisedErr.unexpected "ValueError" "boom")) "ha_ping" {}).2.1
    (RaisedErr.unexpected "ValueError" "boom") rfl

/-!
## REST retry policy (`ha_rest.py`, `_request`)

One attempt either yields a response value, times out
(`httpx.TimeoutException`), or fails with a non-timeout transport error
(`httpx.TransportError`). The body of `_request` converts a timeout into
`HomeAssistantAPIError("Request timeout after ...s")` before the
`tenacity` decorator sees it, and re-raises transport errors unchanged.
The decorator retries only exceptions that are instances of
`httpx.TransportError`/`httpx.TimeoutException` — which the converted
`HomeAssistantAPIError` is not — with `stop_after_attempt(3)` and
`reraise=True`.
-/

/-- Outcome of one underlying HTTP attempt. -/
inductive AttemptResult (α : Type) where
  | ok (v : α)
  | timeout
  | transportError
deriving DecidableEq

/-- Exceptions escaping the body of `_request` on one attempt. -/
inductive ReqError where
  | apiTimeout
  | transport
deriving DecidableEq

/-- The body of `_request` (inside the decorator) on one attempt. -/
def requestAttempt {α : Type} : AttemptResult α → Except ReqError α
  | .ok v => .ok v
  | .timeout => .error .apiTimeout
  | .transportError => .error .transport

/-- `retry_if_exception_type((httpx.TransportError, httpx.TimeoutException))`
applied to what the body actually raises. -/
def tenacityRetryable : ReqError → Bool
  | .transport => true
  | .apiTimeout => false

/-- The tenacity loop: run attempt `i`; on a retryable exception with
retries remaining, try again, else re-raise (`reraise=True`). -/
def tenacityRun {α : Type} (attempts : Nat → AttemptResult α) :
    Nat → Nat → Except ReqError α
  | i, 0 => requestAttempt (attempts i)
  | i, f + 1 =>
    match requestAttempt (attempts i) with
    | .ok v => .ok v
    | .error e =>
      if tenacityRetryable e then tenacityRun attempts (i + 1) f
      else .error e

/-- `_request` with `stop_after_attempt(3)`: the first attempt plus at most
two retries. -/
def restRequest {α : Type} (attempts : Nat → AttemptResult α) :
    Except ReqError α :=
  tenacityRun attempts 0 2

/-- The claim's scenario: the first two attempts time out, the third
succeeds. -/
def timeoutTwiceThenOk : Nat → AttemptResult Nat :=
  fun i => if i < 2 then .timeout else .ok 7

/-- C4 (code bug): the claim — and the retry decorator's own
`retry_if_exception_type` list — say timeouts are retried up to 3
attempts, but the body of `_request` converts `httpx.TimeoutException`
into `HomeAssistantAPIError` before the decorator can see it, so a request
that times out is never retried: with two timeouts followed by an
available success, the client raises the timeout-message `APIError` on the
first attempt instead of returning the successful result. -/
theorem timeout_not_retried :
    restRequest timeoutTwiceThenOk = Except.error ReqError.apiTimeout ∧
    restRequest timeoutTwiceThenOk ≠ Except.ok 7 := by
  constructor
  · rfl
  · intro h
    rw [show restRequest timeoutTwiceThenOk =
      Except.error ReqError.apiTimeout from rfl] at h
    exact Except.noConfusion h

/-!
## WebSocket authentication handshake (`ha_ws.py`, `_authenticate`)

Incoming frames are modelled by their parsed `type` and `message` fields
(`dict.get` yields `none` for an absent key; Python formats `None` into
the f-string error messages). Outbound frames are the auth frame and
command frames; `_authenticate` sends at most the auth frame, and
`get_lovelace_config` only reaches `_send_command` when authentication
returned without raising.
-/

/-- A parsed incoming WebSocket message (`json.loads` + `.get`). -/
structure WSMsg where
  type : Option String := none
  message : Option String := none

/-- Python's rendering of an optional string into an f-string. -/
def pyShow : Option String → String
  | none => "None"
  | some s => s

/-- Outbound WebSocket frames. -/
inductive WSFrame where
  | auth (access_token : String)
  | command (id : Nat) (ctype : String)
deriving DecidableEq

/-- `_authenticate`: wait for `auth_required`, send the auth frame, and
check the response; returns the frames sent and either success or the
raised `HomeAssistantWSAuthError`'s message. -/
def authenticate (token : String) (m1 m2 : WSMsg) :
    List WSFrame × Except String Unit :=
  if m1.type ≠ some "auth_required" then
    ([], .error ("Expected auth_required, got: " ++ pyShow m1.type))
  else if m2.type = some "auth_ok" then
    ([.auth token], .ok ())
  else if m2.type = some "auth_invalid" then
    ([.auth token],
      .error ("Authentication failed: " ++ m2.message.getD "Invalid token"))
  else
    ([.auth token], .error ("Unexpected auth response: " ++ pyShow m2.type))

/-- The frames a WebSocket call (`get_lovelace_config`) sends on one
connection: a raising `_authenticate` propagates out of the `async with`,
so the command frames of the rest of the body are sent only after
authentication succeeded. -/
def sessionFrames (token : String) (m1 m2 : WSMsg)
    (laterFrames : List WSFrame) : List WSFrame :=
  match authenticate token m1 m2 with
  | (sent, .error _) => sent
  | (sent, .ok _) => sent ++ laterFrames

/-- C7: the handshake raises an `AuthError` when the first message is not
`auth_required`; after the auth token is sent, `auth_ok` proceeds,
`auth_invalid` raises an `AuthError` carrying the hub's message (default
`Invalid token`) with no command frame ever sent afterwards on that
connection, and any other response type raises the unexpected-response
error. -/
theorem ws_auth_handshake (token : String) (m1 m2 : WSMsg) :
    (m1.type ≠ some "auth_required" →
      authenticate token m1 m2 =
        ([], .error ("Expected auth_required, got: " ++ pyShow m1.type))) ∧
    (m1.type = some "auth_required" → m2.type = some "auth_ok" →
      authenticate token m1 m2 = ([.auth token], .ok ())) ∧
    (m1.type = some "auth_required" → m2.type = some "auth_invalid" →
      authenticate token m1 m2 =
        ([.auth token], .error
          ("Authentication failed: " ++ m2.message.getD "Invalid token")) ∧
      ∀ laterFrames, sessionFrames token m1 m2 laterFrames = [.auth token]) ∧
    (m1.type = some "auth_required" → m2.type ≠ some "auth_ok" →
      m2.type ≠ some "auth_invalid" →
      authenticate token m1 m2 =
        ([.auth token],
          .error ("Unexpected auth response: " ++ pyShow m2.type))) := by
  refine ⟨?_, ?_, ?_, ?_⟩
  · intro h
    rw [authenticate, if_pos h]
  · intro h1 h2
    rw [authenticate, if_neg (by simp [h1]), if_pos h2]
  · intro h1 h2
    have hok : m2.type ≠ some "auth_ok" := by rw [h2]; decide
    have ha : authenticate token m1 m2 =
        ([.auth token], .error
          ("Authentication failed: " ++ m2.message.getD "Invalid token")) := by
      rw [authenticate, if_neg (by simp [h1]), if_neg hok, if_pos h2]
    exact ⟨ha, fun laterFrames => by rw [sessionFrames, ha]⟩
  · intro h1 h2 h3
    rw [authenticate, if_neg (by simp [h1]), if_neg h2, if_neg h3]

theorem ws_auth_handshake_witness :
    authenticate "tok" { type := some "auth_required" }
      { type := some "auth_invalid", message := some "bad token" } =
      ([WSFrame.auth "tok"],
        Except.error ("Authentication failed: " ++
          (some "bad token").getD "Invalid token")) ∧
    ∀ laterFrames,
      sessionFrames "tok" { type := some "auth_required" }
        { type := some "auth_invalid", message := some "bad token" }
        laterFrames = [WSFrame.auth "tok"] :=
  (ws_auth_handshake "tok" { type := some "auth_required" }
    { type := some "auth_invalid", message := some "bad token" }).2.2.1 rfl rfl

/-!
## WebSocket message ids (`ha_ws.py`)

`__init__` sets `_message_id = 0`; `_next_message_id` increments and
returns it; `_send_command` draws exactly one id per outbound command and
nothing ever resets the counter.
-/

/-- `_next_message_id`: returns the incremented counter and the new
counter state. -/
def next_message_id (state : Nat) : Nat × Nat :=
  (state + 1, state + 1)

/-- The ids carried by `n` successive commands sent from counter state
`state` (each `_send_command` draws exactly one id). -/
def commandIdTrace (state : Nat) : Nat → List Nat
  | 0 => []
  | n + 1 =>
    (next_message_id state).1 :: commandIdTrace (next_message_id state).2 n

theorem commandIdTrace_range (state : Nat) :
    ∀ n, commandIdTrace state n = List.range' (state + 1) n := by
  intro n
  induction n generalizing state with
  | zero => rfl
  | succ n ih =>
    show (state + 1) :: commandIdTrace (state + 1) n =
      (state + 1) :: List.range' (state + 1 + 1) n
    rw [ih (state + 1)]

/-- C9: from a fresh client, the ids attached to outbound commands are
exactly `1, 2, 3, ...`: strictly increasing, starting at 1, one per
command, never reused and never reset. -/
theorem ws_message_ids_strictly_increasing (n : Nat) :
    commandIdTrace 0 n = List.range' 1 n ∧
    List.Chain' (· < ·) (commandIdTrace 0 n) ∧
    (commandIdTrace 0 n).Nodup := by
  have hr := commandIdTrace_range 0 n
  refine ⟨hr, ?_, ?_⟩
  · rw [hr]
    exact (List.pairwise_lt_range' 1 n).chain'
  · rw [hr]
    exact List.nodup_range' 1 n

/-!
## History/logbook hours clamp (`server.py` with `ha_rest.py`)

`call_tool` computes `hours = min(arguments.get("hours", 24), 168)` and
`get_history`/`get_logbook` compute the window
`[now - timedelta(hours=hours), now]`; times are modelled in seconds.
-/

/-- `start_time = end_time - timedelta(hours=hours)` in seconds. -/
def historyWindowStart (now hours : Int) : Int :=
  now - hours * 3600

/-- C10: the hours argument is clamped from above to 168 before the
transport call, with no lower bound: any value of 168 or less — in
particular zero or negative — passes through unchanged, and for
`hours ≤ 0` the computed window start `now - hours*3600` is not earlier
than its end `now`. -/
theorem history_hours_clamp (hours : Option Int) (now : Int) :
    effectiveHours hours ≤ 168 ∧
    (hours.getD 24 ≤ 168 → effectiveHours hours = hours.getD 24) ∧
    (∀ h : Int, hours = some h → h ≤ 0 →
      effectiveHours hours = h ∧
      now ≤ historyWindowStart now (effectiveHours hours)) := by
  refine ⟨min_le_right _ _, fun hle => min_eq_left hle, ?_⟩
  intro h hh hle
  have he : effectiveHours hours = h := by
    rw [hh]
    simp only [effectiveHours, Option.getD_some]
    exact min_eq_left (by omega)
  refine ⟨he, ?_⟩
  rw [he, historyWindowStart]
  have : h * 3600 ≤ 0 := by omega
  omega

theorem history_hours_clamp_witness :
    effectiveHours (some (-5)) = -5 ∧
    (0 : Int) ≤ historyWindowStart 0 (effectiveHours (some (-5))) :=
  (history_hours_clamp (some (-5)) 0).2.2 (-5) rfl (by omega)

/-!
## SSH core-log retrieval (`ssh_logs.py`)

`_run_command` is abstracted as an oracle from command strings to
outcomes: a raised `SSHError` (connection/exec failure or timeout) or a
`(stdout, stderr, exit_status)` result. A strategy attempt "wins" exactly
when its command returns exit status 0 with non-empty stdout
(`if exit_code == 0 and stdout`); a raised `SSHError` is caught and the
next strategy is tried.
-/

/-- Outcome of one `_run_command` invocation. -/
inductive ExecOutcome where
  | raised (msg : String)
  | result (stdout stderr : String) (exit_status : Nat)

/-- Maximum log output size (`ssh_logs.py`). -/
def MAX_LOG_SIZE : Nat := 200000

/-- Common log file paths on HA OS / supervised installs. -/
def HA_CORE_LOG_PATHS : List String :=
  ["/config/home-assistant.log",
   "/var/log/home-assistant.log",
   "/home/homeassistant/.homeassistant/home-assistant.log"]

/-- The stdout a strategy attempt yields when it wins (exit status 0 and
non-empty stdout), and `none` when the attempt raises, exits non-zero, or
produces empty output. -/
def logSuccess : ExecOutcome → Option String
  | .result out _ 0 => if out = "" then none else some out
  | _ => none

/-- The log envelope built by `_format_log_response` (keys absent from a
branch are `none`). -/
structure LogResponse where
  truncated : Bool
  source : String
  requested_lines : Nat
  actual_lines : Option Nat
  total_bytes : Nat
  returned_bytes : Option Nat
  max_bytes : Option Nat
  log : String
deriving DecidableEq

/-- `str.rfind` for the newline character: index of the last newline. -/
def rfindNl (l : List Char) : Option Nat :=
  ((List.range l.length).filter (fun i => l[i]? == some '\n')).getLast?

/-- `_format_log_response(log_content, source, requested_lines)`: count
lines; over `MAX_LOG_SIZE`, cut at that boundary and back off to the last
newline if it lies past the midpoint. -/
def format_log_response (log_content source : String)
    (requested_lines : Nat) : LogResponse :=
  let cs := log_content.data
  let actual_lines :=
    cs.count '\n' + (if cs ≠ [] ∧ cs.getLast? ≠ some '\n' then 1 else 0)
  if cs.length > MAX_LOG_SIZE then
    let t0 := cs.take MAX_LOG_SIZE
    let t := match rfindNl t0 with
      | some i => if i > MAX_LOG_SIZE / 2 then t0.take i else t0
      | none => t0
    { truncated := true, source := source,
      requested_lines := requested_lines, actual_lines := none,
      total_bytes := cs.length, returned_bytes := some t.length,
      max_bytes := some MAX_LOG_SIZE, log := String.mk t }
  else
    { truncated := false, source := source,
      requested_lines := requested_lines, actual_lines := some actual_lines,
      total_bytes := cs.length, returned_bytes := none,
      max_bytes := none, log := log_content }

/-- The strategies `_get_core_logs` attempts, in source order: the
hub-native log command, `tail` over the known log files, then the journal
query; each paired with the source label used for the response. -/
def coreLogAttempts (lines : Nat) : List (String × String) :=
  ("ha core logs --lines " ++ toString lines, "ha core logs") ::
    (HA_CORE_LOG_PATHS.map fun p =>
      ("tail -n " ++ toString lines ++ " " ++ p, "tail " ++ p)) ++
    [("journalctl -u home-assistant -n " ++ toString lines ++ " --no-pager",
      "journalctl")]

/-- The `SSHError` message when every strategy fails. -/
def coreLogsFailMsg : String :=
  "Could not retrieve core logs. Tried: ha core logs, common log files, journalctl"

/-- The strategy chain of `_get_core_logs`: try each command in order
(raised errors caught and skipped), return the first formatted winning
output, raise the all-failed `SSHError` at the end. -/
def tryLogAttempts (run : String → ExecOutcome) (lines : Nat) :
    List (String × String) → Except String LogResponse
  | [] => .error coreLogsFailMsg
  | (cmd, label) :: rest =>
    match logSuccess (run cmd) with
    | some out => .ok (format_log_response out label lines)
    | none => tryLogAttempts run lines rest

/-- `_get_core_logs(lines)` against the command oracle `run`. -/
def get_core_logs (lines : Nat) (run : String → ExecOutcome) :
    Except String LogResponse :=
  tryLogAttempts run lines (coreLogAttempts lines)

theorem tryLogAttempts_fail (run : String → ExecOutcome) (lines : Nat) :
    ∀ A, (∀ cl ∈ A, logSuccess (run cl.1) = none) →
      tryLogAttempts run lines A = .error coreLogsFailMsg := by
  intro A
  induction A with
  | nil => intro _; rfl
  | cons hd rest ih =>
    intro hall
    match hd with
    | (cmd, label) =>
      rw [tryLogAttempts, hall (cmd, label) (List.mem_cons_self _ _)]
      exact ih fun cl hcl => hall cl (List.mem_cons_of_mem _ hcl)

theorem tryLogAttempts_first (run : String → ExecOutcome) (lines : Nat) :
    ∀ A₁ A₂ cmd label out,
      (∀ cl ∈ A₁, logSuccess (run cl.1) = none) →
      logSuccess (run cmd) = some out →
      tryLogAttempts run lines (A₁ ++ (cmd, label) :: A₂) =
        .ok (format_log_response out label lines) := by
  intro A₁
  induction A₁ with
  | nil =>
    intro A₂ cmd label out _ hsucc
    rw [List.nil_append, tryLogAttempts, hsucc]
  | cons hd rest ih =>
    intro A₂ cmd label out hfail hsucc
    match hd with
    | (c, l) =>
      rw [List.cons_append, tryLogAttempts,
        hfail (c, l) (List.mem_cons_self _ _)]
      exact ih A₂ cmd label out
        (fun cl hcl => hfail cl (List.mem_cons_of_mem _ hcl)) hsucc

/-- C8: `get_logs(kind="core")` attempts, in order, the hub-native log
command, `tail` over the fixed list of known log files, and the system
journal query; the first attempt returning exit status 0 with non-empty
stdout wins and its output is returned formatted and labeled with that
strategy's source label; when every attempt fails, an `SSHError` naming
all the attempted strategies is raised. -/
theorem core_logs_strategy_chain (lines : Nat) (run : String → ExecOutcome) :
    (∀ A₁ A₂ cmd label out,
      coreLogAttempts lines = A₁ ++ (cmd, label) :: A₂ →
      (∀ cl ∈ A₁, logSuccess (run cl.1) = none) →
      logSuccess (run cmd) = some out →
      get_core_logs lines run =
        .ok (format_log_response out label lines)) ∧
    ((∀ cl ∈ coreLogAttempts lines, logSuccess (run cl.1) = none) →
      get_core_logs lines run = .error coreLogsFailMsg) := by
  constructor
  · intro A₁ A₂ cmd label out he hfail hsucc
    rw [get_core_logs, he]
    exact tryLogAttempts_first run lines A₁ A₂ cmd label out hfail hsucc
  · intro hall
    rw [get_core_logs]
    exact tryLogAttempts_fail run lines (coreLogAttempts lines) hall

theorem core_logs_strategy_chain_witness :
    get_core_logs 500 (fun cmd =>
      if cmd = "journalctl -u home-assistant -n 500 --no-pager"
      then ExecOutcome.result "journal line" "" 0
      else ExecOutcome.raised "connection refused") =
    Except.ok (format_log_response "journal line" "journalctl" 500) :=
  (core_logs_strategy_chain 500 _).1
    [("ha core logs --lines 500", "ha core logs"),
     ("tail -n 500 /config/home-assistant.log",
       "tail /config/home-assistant.log"),
     ("tail -n 500 /var/log/home-assistant.log",
       "tail /var/log/home-assistant.log"),
     ("tail -n 500 /home/homeassistant/.homeassistant/home-assistant.log",
       "tail /home/homeassistant/.homeassistant/home-assistant.log")]
    [] "journalctl -u home-assistant -n 500 --no-pager" "journalctl"
    "journal line" (by decide) (by decide) (by decide)
